import Mathlib

/-!
Shallow embedding of the paccat sources (src/main.rs, src/args.rs).

Strings are carried as Lean `String`; all character-level operations used
by the source (`contains('/')`, `rsplit('/').next()`, `trim_start_matches('/')`,
`contains("://")`) are modelled on the underlying `List Char` (`String.data`).
Bytes are modelled as `Nat` (only the comparison with the zero byte matters).
External collaborators (the alpm package database, the fetch service, the
archive iterator, the regex engine, the filesystem, the tty test) are
modelled as an explicit environment of functions, matching the interface
the source calls them through.
-/

/-- Substring test on character lists; models Rust `str::contains(pat)` for a
string pattern (true iff `pat` occurs contiguously in `s`). -/
def containsStr (s pat : List Char) : Bool :=
  match s with
  | [] => pat.isPrefixOf []
  | _ :: rest => pat.isPrefixOf s || containsStr rest pat

/-- Scan state of `dump_files`, from `enum EntryState` in main.rs. -/
inductive EntryState where
  | Skip
  | FirstChunk
  | Reading
deriving DecidableEq, Repr

/-- Match strategy, from `enum MatchWith` in main.rs. The regex engine is an
external library; a compiled `RegexSet` is modelled as its matching
predicate. -/
inductive MatchWith where
  | Regex (r : String → Bool)
  | Files (f : List String)

/-- Matcher, from `struct Match` in main.rs: the strategy plus the
`exact_file` path discipline. -/
structure Match where
  with_ : MatchWith
  exact_file : Bool

/-- Constructor of `MatchWith` (`MatchWith::new`): in regex mode the pattern
list is compiled by the regex collaborator (which may fail), otherwise the
literal list is kept verbatim. -/
def MatchWith.new (regex : Bool) (compile : List String → Except String (String → Bool))
    (files : List String) : Except String MatchWith :=
  if regex then
    match compile files with
    | .ok r => .ok (.Regex r)
    | .error e => .error e
  else
    .ok (.Files files)

/-- Constructor of `Match` (`Match::new`): `exact_file` is true iff any
pattern contains a path separator. -/
def Match.new (regex : Bool) (compile : List String → Except String (String → Bool))
    (files : List String) : Except String Match :=
  let exact_file := files.any fun f => f.data.any (fun c => c == '/')
  match MatchWith.new regex compile files with
  | .ok w => .ok ⟨w, exact_file⟩
  | .error e => .error e

/-- Models Rust `file.rsplit('/').next().unwrap()`: the longest suffix of
`file` containing no `'/'` (the whole string when it has no separator). -/
def rsplit_next (file : String) : String :=
  String.mk ((file.data.reverse.takeWhile fun c => !(c == '/')).reverse)

/-- Matching predicate, from `Match::is_match` in main.rs. -/
def Match.is_match (m : Match) (file : String) : Bool :=
  let file := if !m.exact_file then rsplit_next file else file
  if file.data.isEmpty then
    false
  else
    match m.with_ with
    | .Regex r => r file
    | .Files f => f.any fun t => t == file

/-- Binary heuristic, from `is_binary` in main.rs: some byte among the first
512 of the given chunk is zero. -/
def is_binary (data : List Nat) : Bool :=
  (data.take 512).any fun b => b == 0

/-- Command-line arguments, from `struct Args` in args.rs (only the fields
the core reads; the pass-through database options are omitted).
The `localdb` field is the installed-vs-repository whole-database selector:
main.rs reads `args.localdb` but the field is absent from the args.rs
snapshot, so it is modelled from the spec (an implicit "installed vs
repository" whole-database selector). -/
structure Args where
  regex : Bool
  quiet : Bool
  binary : Bool
  targets : List String
  files : List String
  localdb : Bool

/-- Archive entry events, from `compress_tools::ArchiveContents`. -/
inductive ArchiveContents where
  | StartOfEntry (file : String)
  | DataChunk (v : List Nat)
  | EndOfEntry
  | Err (e : String)

/-- One write performed by the scanner on standard output: either a name
line (`writeln!`) or a raw data chunk (`write_all`). -/
inductive OutEvent where
  | line (s : String)
  | data (v : List Nat)
deriving DecidableEq, Repr

/-- Mutable state of one `dump_files` scan: the entry state machine, the
found counter, the remembered current file name, and the writes made so far
to standard output and standard error. -/
structure ScanState where
  state : EntryState
  found : Nat
  cur_file : String
  stdout : List OutEvent
  stderr : List String
deriving DecidableEq, Repr

/-- Initial scan state of `dump_files`. -/
def initScan : ScanState :=
  ⟨.Skip, 0, "", [], []⟩

/-- One iteration of the `for content in archive` loop of `dump_files`. -/
def dumpStep (matcher : Match) (args : Args) (s : ScanState) :
    ArchiveContents → Except String ScanState
  | .StartOfEntry file =>
    if matcher.is_match file then
      if args.quiet then
        .ok { s with found := s.found + 1, stdout := s.stdout ++ [.line file] }
      else
        .ok { s with found := s.found + 1, cur_file := file, state := .FirstChunk }
    else
      .ok s
  | .DataChunk v =>
    if s.state = .FirstChunk then
      if is_binary v && !args.binary then
        .ok { s with state := .Skip,
                     stderr := s.stderr ++ [s.cur_file ++ " is a binary file -- use --binary to print"] }
      else
        .ok { s with stdout := s.stdout ++ [.data v] }
    else if s.state = .Reading then
      .ok { s with stdout := s.stdout ++ [.data v] }
    else
      .ok s
  | .EndOfEntry =>
    .ok { s with state := .Skip }
  | .Err e =>
    .error e

/-- The whole event loop of `dump_files`, folded over the archive's event
list. -/
def dumpLoop (matcher : Match) (args : Args) :
    ScanState → List ArchiveContents → Except String ScanState
  | s, [] => .ok s
  | s, c :: rest =>
    match dumpStep matcher args s c with
    | .ok s2 => dumpLoop matcher args s2 rest
    | .error e => .error e

/-- Scanner for one archive, from `dump_files` in main.rs: run the event
loop from the initial state, then compute the per-archive status from the
found counter. Returns the status together with the final scan state (the
writes the scan performed). -/
def dump_files (archive : List ArchiveContents) (matcher : Match) (args : Args) :
    Except String (Nat × ScanState) :=
  match dumpLoop matcher args initScan archive with
  | .error e => .error e
  | .ok s =>
    let ret : Nat :=
      match matcher.with_ with
      | .Files f => if f.length = s.found then 0 else 1
      | .Regex _ => if s.found ≠ 0 then 0 else 1
    .ok (ret, s)

/-- Names of the archive entries a scan matches, recomputed directly from
the event list (used to state properties of the found counter). -/
def matchedNames (archive : List ArchiveContents) (matcher : Match) : List String :=
  archive.filterMap fun c =>
    match c with
    | .StartOfEntry f => if matcher.is_match f then some f else none
    | _ => none

/-- Number of matched entries of an archive, independent of any other
archive. -/
def countMatched (archive : List ArchiveContents) (matcher : Match) : Nat :=
  (matchedNames archive matcher).length

/-- Package record as the source reads it through alpm: a name and the file
manifest (entry names the package installs). -/
structure Pkg where
  name : String
  files : List String
deriving DecidableEq, Repr

/-- Environment of external collaborators consumed by main.rs: the regex
engine, the tty test, the alpm databases and fetch service, the filesystem
test, and the archive iterator. Lookup failures of `get_dbpkg` and
`dbs_pkg` are modelled as `none` (the source treats them as "not a
package"). -/
structure Env where
  compile_regex : List String → Except String (String → Bool)
  isatty : Bool
  localdb_pkgs : List Pkg
  syncdb_pkgs : List Pkg
  get_dbpkg : String → Option Pkg
  dbs_pkg : String → Option Pkg
  get_download_url : Pkg → Except String String
  fetch_pkgurl : List String → Except String (List String)
  path_exists : String → Bool
  open_archive : String → Except String (List ArchiveContents)

/-- Package filter, from `want_pkg` in main.rs: some file of the package's
manifest satisfies the matcher. -/
def want_pkg (pkg : Pkg) (matcher : Match) : Bool :=
  pkg.files.any fun f => matcher.is_match f

/-- The `for targ in &args.targets` classification loop of `get_targets`:
each target is tried as a database package, then as a URL (contains
`"://"`), then as an existing local file; otherwise the whole resolution
fails naming the target. Accumulates the `download`, `repo` and `files`
lists in order. -/
def classifyLoop (env : Env) (matcher : Match) :
    List String → List String → List Pkg → List String →
    Except String (List String × List Pkg × List String)
  | [], download, repo, files => .ok (download, repo, files)
  | targ :: rest, download, repo, files =>
    match env.get_dbpkg targ with
    | some pkg =>
      if want_pkg pkg matcher then
        classifyLoop env matcher rest download (repo ++ [pkg]) files
      else
        classifyLoop env matcher rest download repo files
    | none =>
      if containsStr targ.data "://".data then
        classifyLoop env matcher rest (download ++ [targ]) repo files
      else if env.path_exists targ then
        classifyLoop env matcher rest download repo (files ++ [targ])
      else
        .error ("\x27" ++ targ ++ "\x27 is not a package, file or url")

/-- The `for pkg in repo` loop of `get_targets`: convert every queued
package to its download URL, appending to the download list; a URL error
aborts. -/
def repoUrlLoop (env : Env) : List Pkg → List String → Except String (List String)
  | [], download => .ok download
  | pkg :: rest, download =>
    match env.get_download_url pkg with
    | .ok url => repoUrlLoop env rest (download ++ [url])
    | .error e => .error e

/-- Target resolution, from `get_targets` in main.rs. With no targets the
whole database (installed when `localdb`, else the union of sync
databases) is filtered by `want_pkg`; in the installed case each surviving
package is re-resolved in the sync databases (`dbs.pkg(p.name()).ok()`),
dropping those that fail. With targets the classification loop runs. Then
queued packages become download URLs, the batch is fetched, and the fetched
paths are appended to the literal local paths. -/
def get_targets (env : Env) (args : Args) (matcher : Match) :
    Except String (List String) :=
  let step1 : Except String (List String × List Pkg × List String) :=
    if args.targets.isEmpty then
      if args.localdb then
        .ok ([], (env.localdb_pkgs.filter fun p => want_pkg p matcher).filterMap
                   (fun p => env.dbs_pkg p.name), [])
      else
        .ok ([], env.syncdb_pkgs.filter fun p => want_pkg p matcher, [])
    else
      classifyLoop env matcher args.targets [] [] []
  match step1 with
  | .error e => .error e
  | .ok (download, repo, files) =>
    match repoUrlLoop env repo download with
    | .error e => .error e
    | .ok download2 =>
      match env.fetch_pkgurl download2 with
      | .error e => .error e
      | .ok downloaded => .ok (files ++ downloaded)

/-- Pattern preprocessing in `run`: every pattern is mapped through
`trim_start_matches('/')`, removing all leading separators. -/
def stripFiles (files : List String) : List String :=
  files.map fun f => String.mk (f.data.dropWhile fun c => c == '/')

/-- The `for pkg in pkgs` loop of `run`: open each resolved archive, scan
it, and OR its status into the accumulator. -/
def runLoop (env : Env) (matcher : Match) (args : Args) :
    List String → Nat → Except String Nat
  | [], ret => .ok ret
  | pkg :: rest, ret =>
    match env.open_archive pkg with
    | .error e => .error e
    | .ok archive =>
      match dump_files archive matcher args with
      | .error e => .error e
      | .ok r => runLoop env matcher args rest (ret ||| r.1)

/-- Status of scanning one resolved archive path on its own (open plus
`dump_files`), used to state what `runLoop` accumulates. -/
def archiveStatus (env : Env) (matcher : Match) (args : Args) (pkg : String) :
    Except String Nat :=
  match env.open_archive pkg with
  | .error e => .error e
  | .ok archive =>
    match dump_files archive matcher args with
    | .error e => .error e
    | .ok r => .ok r.1

/-- Top-level logic, from `run` in main.rs: binary output is force-enabled
when standard output is not a tty, patterns lose their leading separators,
the matcher is built, targets are resolved, and the archives are scanned in
order with statuses OR-ed together. -/
def run (env : Env) (args0 : Args) : Except String Nat :=
  let args : Args := { args0 with binary := args0.binary || !env.isatty }
  let files := stripFiles args.files
  match Match.new args.regex env.compile_regex files with
  | .error e => .error e
  | .ok matcher =>
    match get_targets env args matcher with
    | .error e => .error e
    | .ok pkgs => runLoop env matcher args pkgs 0

/-- Process entry, from `main` in main.rs: a successful `run` exits with
its status; an error prints `error: <message>` on standard error and exits
with status 1. Returns the standard-error lines and the exit status. -/
def mainEntry (env : Env) (args : Args) : List String × Nat :=
  match run env args with
  | .ok i => ([], i)
  | .error e => (["error: " ++ e], 1)

/-- Fixture: a regex engine stub used to instantiate constructors in
concrete computations (non-regex runs never call it). -/
def compileStub : List String → Except String (String → Bool) :=
  fun _ => .ok fun _ => true

/-- Fixture: the matcher produced by one literal pattern `foo`. -/
def mFoo : Match := ⟨.Files ["foo"], false⟩

/-- Fixture: the matcher produced by one literal pattern `a`. -/
def mA : Match := ⟨.Files ["a"], false⟩

/-- Fixture: non-quiet, non-binary arguments with pattern `foo`. -/
def argsPlain : Args := ⟨false, false, false, [], ["foo"], false⟩

/-- Fixture: quiet, non-binary arguments with pattern `foo`. -/
def argsQuiet : Args := ⟨false, true, false, [], ["foo"], false⟩

theorem takeWhile_append_stop {α : Type} (p : α → Bool) (A : List α) (x : α) (B : List α)
    (hA : ∀ a ∈ A, p a = true) (hx : p x = false) :
    (A ++ x :: B).takeWhile p = A := by
  induction A with
  | nil => simp [List.takeWhile_cons, hx]
  | cons a as ih =>
    have ha : p a = true := hA a (List.mem_cons_self a as)
    have hrest : ∀ b ∈ as, p b = true := fun b hb => hA b (List.mem_cons_of_mem a hb)
    simp [List.takeWhile_cons, ha, ih hrest]

theorem rsplit_next_no_slash (c : String) (hc : c.data.any (fun x => x == '/') = false) :
    rsplit_next c = c := by
  have hall : ∀ x ∈ c.data.reverse, (!(x == '/')) = true := by
    intro x hx
    have := (List.any_eq_false.mp hc) x (List.mem_reverse.mp hx)
    simpa using this
  simp [rsplit_next, List.takeWhile_eq_self_iff.mpr hall]

theorem rsplit_next_append (p c : String) (hc : c.data.any (fun x => x == '/') = false) :
    rsplit_next (p ++ "/" ++ c) = c := by
  have hd : (p ++ "/" ++ c).data = p.data ++ '/' :: c.data := by
    simp [String.data_append]
  have hall : ∀ x ∈ c.data.reverse, (!(x == '/')) = true := by
    intro x hx
    have := (List.any_eq_false.mp hc) x (List.mem_reverse.mp hx)
    simpa using this
  have hrev : (p.data ++ '/' :: c.data).reverse = c.data.reverse ++ '/' :: p.data.reverse := by
    simp
  have hslash : (!(('/' : Char) == '/')) = false := by decide
  calc rsplit_next (p ++ "/" ++ c)
      = String.mk (((p.data ++ '/' :: c.data).reverse.takeWhile fun x => !(x == '/')).reverse) := by
        simp [rsplit_next, hd]
    _ = String.mk (((c.data.reverse ++ '/' :: p.data.reverse).takeWhile fun x => !(x == '/')).reverse) := by
        rw [hrev]
    _ = String.mk (c.data.reverse.reverse) := by
        rw [takeWhile_append_stop _ _ _ _ hall hslash]
    _ = c := by simp

theorem Match.new_exact_file (regex : Bool) (compile : List String → Except String (String → Bool))
    (files : List String) (m : Match) (hm : Match.new regex compile files = .ok m) :
    m.exact_file = files.any fun f => f.data.any (fun c => c == '/') := by
  unfold Match.new at hm
  cases hw : MatchWith.new regex compile files with
  | ok w => rw [hw] at hm; cases hm; rfl
  | error e => rw [hw] at hm; cases hm

/-- C4: with no separator in any pattern (basename discipline), `is_match`
is invariant under prepending any path prefix to a candidate that itself
contains no separator. -/
theorem c4_prefix_invariant (regex : Bool)
    (compile : List String → Except String (String → Bool)) (files : List String)
    (m : Match) (_hne : files ≠ [])
    (hnosep : ∀ f ∈ files, f.data.any (fun c => c == '/') = false)
    (hm : Match.new regex compile files = .ok m) (p c : String)
    (hc : c.data.any (fun x => x == '/') = false) :
    m.is_match (p ++ "/" ++ c) = m.is_match c := by
  have hexact : m.exact_file = false := by
    rw [Match.new_exact_file regex compile files m hm]
    exact List.any_eq_false.mpr fun f hf => by rw [hnosep f hf]; simp
  simp only [Match.is_match, hexact, Bool.not_false, if_true,
    rsplit_next_append p c hc, rsplit_next_no_slash c hc]

/-- Witness for C4 at pattern `foo`, prefix `usr/bin`, candidate `foo`. -/
theorem c4_witness :
    Match.is_match ⟨.Files ["foo"], false⟩ ("usr/bin" ++ "/" ++ "foo") =
      Match.is_match ⟨.Files ["foo"], false⟩ "foo" :=
  c4_prefix_invariant false compileStub ["foo"] ⟨.Files ["foo"], false⟩
    (by decide) (by decide) rfl "usr/bin" "foo" (by decide)

/-- C5 counterexample: with the pattern set `["a/"]` (exact mode), the
pattern contains a separator, so `exact_file` is true, no basename
reduction happens, and `is_match "a/"` is true — refuting the claim that
`is_match "a/"` is false for every pattern set and both match modes. -/
theorem c5_counterexample :
    Match.new false compileStub ["a/"] = .ok ⟨.Files ["a/"], true⟩ ∧
    Match.is_match ⟨.Files ["a/"], true⟩ "a/" = true :=
  ⟨rfl, by decide⟩

/-- C5 amended: `is_match` is a total function; `is_match ""` is false for
every matcher; any candidate whose reduced form is empty yields false; and
under the basename discipline (`exact_file = false`) `is_match "a/"` is
false. -/
theorem c5_amended (m : Match) (file : String) :
    m.is_match "" = false ∧
    (m.exact_file = false → m.is_match "a/" = false) ∧
    ((if !m.exact_file then rsplit_next file else file).data.isEmpty = true →
      m.is_match file = false) := by
  refine ⟨?_, ?_, ?_⟩
  · cases he : m.exact_file <;> simp [Match.is_match, he, rsplit_next]
  · intro he
    simp [Match.is_match, he, rsplit_next]
  · intro he
    cases hex : m.exact_file with
    | false =>
      rw [hex] at he
      simp at he
      simp [Match.is_match, hex, he]
    | true =>
      rw [hex] at he
      simp at he
      simp [Match.is_match, hex, he]

/-- Witness for C5 at the basename-discipline matcher for pattern `a`. -/
theorem c5_witness : Match.is_match mA "a/" = false :=
  (c5_amended mA "a/").2.1 rfl

theorem head_dropWhile_false {α : Type} (p : α → Bool) (l : List α) (c : α)
    (h : (l.dropWhile p).head? = some c) : p c = false := by
  induction l with
  | nil => simp [List.dropWhile] at h
  | cons a as ih =>
    by_cases hp : p a = true
    · rw [List.dropWhile_cons_of_pos hp] at h
      exact ih h
    · rw [List.dropWhile_cons_of_neg hp] at h
      simp at h
      subst h
      exact Bool.eq_false_iff.mpr hp

/-- C10: pattern preprocessing removes all leading separators (no stripped
pattern starts with a separator), a single-separator pattern like `/foo`
as well as `//foo` strips to `foo`, and the matcher built from the
stripped list has `exact_file = false` (basename matching). -/
theorem c10_strip_leading (fs : List String) :
    (∀ g ∈ stripFiles fs, ∀ c, g.data.head? = some c → (c == '/') = false) ∧
    stripFiles ["/foo"] = ["foo"] ∧
    stripFiles ["//foo"] = ["foo"] ∧
    (∀ compile, Match.new false compile (stripFiles ["/foo"]) =
      .ok ⟨.Files ["foo"], false⟩) := by
  refine ⟨?_, by decide, by decide, fun compile => rfl⟩
  intro g hg c hc
  simp only [stripFiles, List.mem_map] at hg
  obtain ⟨f, _, hf⟩ := hg
  rw [← hf] at hc
  exact head_dropWhile_false (fun x => x == '/') f.data c hc

/-- Witness for C10: the head of the stripped pattern `//a` is not a
separator. -/
theorem c10_witness : (('a' : Char) == '/') = false :=
  (c10_strip_leading ["//a"]).1 "a" (by decide) 'a' rfl

theorem matchedNames_cons (c : ArchiveContents) (rest : List ArchiveContents) (m : Match) :
    matchedNames (c :: rest) m = matchedNames [c] m ++ matchedNames rest m := by
  cases c with
  | StartOfEntry f =>
    by_cases hm : m.is_match f = true <;>
      simp [matchedNames, List.filterMap_cons, hm]
  | DataChunk v => simp [matchedNames, List.filterMap_cons]
  | EndOfEntry => simp [matchedNames, List.filterMap_cons]
  | Err e => simp [matchedNames, List.filterMap_cons]

theorem dumpStep_ok_found (m : Match) (args : Args) (s : ScanState) (c : ArchiveContents)
    (s2 : ScanState) (h : dumpStep m args s c = .ok s2) :
    s2.found = s.found + (matchedNames [c] m).length := by
  cases c with
  | StartOfEntry f =>
    by_cases hm : m.is_match f = true
    · cases hq : args.quiet with
      | true =>
        simp [dumpStep, hm, hq] at h
        rw [← h]
        simp [matchedNames, hm]
      | false =>
        simp [dumpStep, hm, hq] at h
        rw [← h]
        simp [matchedNames, hm]
    · simp [dumpStep, hm] at h
      rw [← h]
      simp [matchedNames, hm]
  | DataChunk v =>
    by_cases h1 : s.state = EntryState.FirstChunk
    · by_cases h2 : (is_binary v && !args.binary) = true
      · simp [dumpStep, h1, h2] at h
        rw [← h]
        simp [matchedNames]
      · simp [dumpStep, h1, h2] at h
        rw [← h]
        simp [matchedNames]
    · by_cases h3 : s.state = EntryState.Reading
      · simp [dumpStep, h1, h3] at h
        rw [← h]
        simp [matchedNames]
      · simp [dumpStep, h1, h3] at h
        rw [← h]
        simp [matchedNames]
  | EndOfEntry =>
    simp [dumpStep] at h
    rw [← h]
    simp [matchedNames]
  | Err e => simp [dumpStep] at h

theorem dumpLoop_found (m : Match) (args : Args) :
    ∀ (arch : List ArchiveContents) (s s2 : ScanState),
      dumpLoop m args s arch = .ok s2 → s2.found = s.found + countMatched arch m := by
  intro arch
  induction arch with
  | nil =>
    intro s s2 h
    simp [dumpLoop] at h
    subst h
    simp [countMatched, matchedNames]
  | cons c rest ih =>
    intro s s2 h
    simp only [dumpLoop] at h
    cases hstep : dumpStep m args s c with
    | error e => rw [hstep] at h; cases h
    | ok s1 =>
      rw [hstep] at h
      have h1 := dumpStep_ok_found m args s c s1 hstep
      have h2 := ih s1 s2 h
      have hcount : countMatched (c :: rest) m =
          (matchedNames [c] m).length + countMatched rest m := by
        unfold countMatched
        rw [matchedNames_cons, List.length_append]
      omega

theorem dumpStep_quiet (m : Match) (args : Args) (hq : args.quiet = true)
    (s : ScanState) (c : ArchiveContents) (s2 : ScanState)
    (hs : s.state = .Skip) (h : dumpStep m args s c = .ok s2) :
    s2 = ⟨.Skip, s.found + (matchedNames [c] m).length, s.cur_file,
          s.stdout ++ (matchedNames [c] m).map OutEvent.line, s.stderr⟩ := by
  obtain ⟨st, fo, cf, so, se⟩ := s
  simp only [ScanState.state] at hs
  subst hs
  cases c with
  | StartOfEntry f =>
    by_cases hm : m.is_match f = true
    · simp [dumpStep, hm, hq] at h
      rw [← h]
      simp [matchedNames, hm]
    · simp [dumpStep, hm] at h
      rw [← h]
      simp [matchedNames, hm]
  | DataChunk v =>
    simp [dumpStep] at h
    rw [← h]
    simp [matchedNames]
  | EndOfEntry =>
    simp [dumpStep] at h
    rw [← h]
    simp [matchedNames]
  | Err e => simp [dumpStep] at h

theorem dumpLoop_quiet (m : Match) (args : Args) (hq : args.quiet = true) :
    ∀ (arch : List ArchiveContents) (s s2 : ScanState),
      s.state = .Skip → dumpLoop m args s arch = .ok s2 →
      s2 = ⟨.Skip, s.found + countMatched arch m, s.cur_file,
            s.stdout ++ (matchedNames arch m).map OutEvent.line, s.stderr⟩ := by
  intro arch
  induction arch with
  | nil =>
    intro s s2 hs h
    simp [dumpLoop] at h
    subst h
    obtain ⟨st, fo, cf, so, se⟩ := s
    simp only [ScanState.state] at hs
    subst hs
    simp [countMatched, matchedNames]
  | cons c rest ih =>
    intro s s2 hs h
    simp only [dumpLoop] at h
    cases hstep : dumpStep m args s c with
    | error e => rw [hstep] at h; cases h
    | ok s1 =>
      rw [hstep] at h
      have h1 := dumpStep_quiet m args hq s c s1 hs hstep
      subst h1
      have h2 := ih _ s2 rfl h
      rw [h2]
      have hcount : countMatched (c :: rest) m =
          (matchedNames [c] m).length + countMatched rest m := by
        unfold countMatched
        rw [matchedNames_cons, List.length_append]
      simp [ScanState.mk.injEq, hcount, matchedNames_cons c rest m]
      omega

/-- C1 (amended): for every single archive scan, the found counter equals
the number of matched entries of that archive alone, and the per-archive
status is 0 iff, in exact mode, that count equals the total number of
requested literal patterns (counted with multiplicity), and in regex mode
iff the count is nonzero. -/
theorem c1_status_amended (archive : List ArchiveContents) (m : Match) (args : Args)
    (ret : Nat) (s : ScanState) (h : dump_files archive m args = .ok (ret, s)) :
    s.found = countMatched archive m ∧
    (∀ fl, m.with_ = .Files fl → (ret = 0 ↔ countMatched archive m = fl.length)) ∧
    (∀ r, m.with_ = .Regex r → (ret = 0 ↔ countMatched archive m ≠ 0)) := by
  unfold dump_files at h
  cases hl : dumpLoop m args initScan archive with
  | error e => rw [hl] at h; cases h
  | ok s1 =>
    rw [hl] at h
    simp only [Except.ok.injEq, Prod.mk.injEq] at h
    obtain ⟨hret, hs⟩ := h
    subst hs
    have hf := dumpLoop_found m args archive initScan s1 hl
    simp only [initScan] at hf
    rw [Nat.zero_add] at hf
    refine ⟨hf, ?_, ?_⟩
    · intro fl hw
      rw [hw] at hret
      rw [← hret, ← hf]
      by_cases hc : fl.length = s1.found
      · simp [hc]
      · simp [hc]
        omega
    · intro r hw
      rw [hw] at hret
      rw [← hret, ← hf]
      by_cases hc : s1.found = 0
      · simp [hc]
      · simp [hc]

/-- Witness for C1 at one literal pattern `a` and an archive holding one
matching entry. -/
theorem c1_witness :
    (1 : Nat) = countMatched [.StartOfEntry "a", .EndOfEntry] mA :=
  (c1_status_amended [.StartOfEntry "a", .EndOfEntry] mA argsPlain 0
    ⟨.Skip, 1, "a", [], []⟩ rfl).1

/-- C1 counterexample: with the duplicated literal pattern list
`["a", "a"]` and an archive holding one entry `a`, the found counter (1)
equals the number of distinct requested patterns (1), yet the status is 1,
because the code compares against the pattern count with multiplicity (2). -/
theorem c1_counterexample :
    Match.new false compileStub ["a", "a"] = .ok ⟨.Files ["a", "a"], false⟩ ∧
    dump_files [.StartOfEntry "a", .EndOfEntry] ⟨.Files ["a", "a"], false⟩ argsPlain =
      .ok (1, ⟨.Skip, 1, "a", [], []⟩) ∧
    (["a", "a"] : List String).dedup = ["a"] :=
  ⟨rfl, rfl, by simp⟩

/-- C2: actual behavior of the code at the failing input. The matched
entry `foo` has a first chunk `[65]` that is not binary, yet the scan
inspects the second chunk `[66, 0]` too, flags the entry binary there,
reports it on standard error and drops the chunk: the state machine never
reaches `Reading` (the assignment is missing in the source), so the binary
guard is re-applied to every chunk, not only the first. -/
theorem c2_code_behavior :
    is_binary [65] = false ∧
    dump_files [.StartOfEntry "foo", .DataChunk [65], .DataChunk [66, 0], .EndOfEntry]
        mFoo argsPlain =
      .ok (0, ⟨.Skip, 1, "foo", [.data [65]],
               ["foo is a binary file -- use --binary to print"]⟩) :=
  ⟨rfl, rfl⟩

/-- C3: in quiet mode a scan writes exactly the matched entry names (one
line each, in order) to standard output, counts exactly the matched
entries, writes nothing to standard error (the binary guard never runs),
and never enters a data-printing state — for every archive event
sequence. -/
theorem c3_quiet_scan (archive : List ArchiveContents) (m : Match) (args : Args)
    (ret : Nat) (s : ScanState) (hq : args.quiet = true)
    (h : dump_files archive m args = .ok (ret, s)) :
    s.stdout = (matchedNames archive m).map OutEvent.line ∧
    s.found = countMatched archive m ∧
    s.stderr = [] ∧ s.state = .Skip := by
  unfold dump_files at h
  cases hl : dumpLoop m args initScan archive with
  | error e => rw [hl] at h; cases h
  | ok s1 =>
    rw [hl] at h
    simp only [Except.ok.injEq, Prod.mk.injEq] at h
    obtain ⟨hret, hs⟩ := h
    subst hs
    have h1 := dumpLoop_quiet m args hq archive initScan s1 rfl hl
    refine ⟨?_, ?_, ?_, ?_⟩ <;> rw [h1] <;> simp [initScan, countMatched]

/-- Witness for C3 at a quiet scan of one matching entry followed by a
data chunk containing a zero byte. -/
theorem c3_witness :
    ([OutEvent.line "foo"] : List OutEvent) =
      (matchedNames [.StartOfEntry "foo", .DataChunk [0], .EndOfEntry] mFoo).map
        OutEvent.line :=
  (c3_quiet_scan [.StartOfEntry "foo", .DataChunk [0], .EndOfEntry] mFoo argsQuiet 0
    ⟨.Skip, 1, "", [.line "foo"], []⟩ rfl rfl).1

/-- A target string the classification loop can settle without failing:
it is a database package, or contains the URL separator, or exists as a
local path. -/
def resolvableB (env : Env) (targ : String) : Bool :=
  (env.get_dbpkg targ).isSome || containsStr targ.data "://".data || env.path_exists targ

theorem classifyLoop_unresolvable (env : Env) (m : Match) :
    ∀ (ts1 : List String) (targ : String) (ts2 : List String)
      (download : List String) (repo : List Pkg) (files : List String),
      (∀ t ∈ ts1, resolvableB env t = true) → resolvableB env targ = false →
      classifyLoop env m (ts1 ++ targ :: ts2) download repo files =
        .error ("\x27" ++ targ ++ "\x27 is not a package, file or url") := by
  intro ts1
  induction ts1 with
  | nil =>
    intro targ ts2 download repo files _ hu
    have h1 : env.get_dbpkg targ = none := by
      cases hg : env.get_dbpkg targ with
      | none => rfl
      | some p => simp [resolvableB, hg] at hu
    rw [resolvableB, h1] at hu
    simp only [Option.isSome_none, Bool.false_or, Bool.or_eq_false_iff] at hu
    simp [classifyLoop, h1, hu.1, hu.2]
  | cons t ts ih =>
    intro targ ts2 download repo files hall hu
    have ht := hall t (List.mem_cons_self t ts)
    have hrest : ∀ x ∈ ts, resolvableB env x = true :=
      fun x hx => hall x (List.mem_cons_of_mem t hx)
    simp only [List.cons_append, classifyLoop]
    cases hg : env.get_dbpkg t with
    | some pkg =>
      by_cases hw : want_pkg pkg m = true
      · simp only [hw, if_true]
        exact ih targ ts2 download (repo ++ [pkg]) files hrest hu
      · simp only [Bool.not_eq_true] at hw
        simp only [hw, Bool.false_eq_true, if_false]
        exact ih targ ts2 download repo files hrest hu
    | none =>
      by_cases hc : containsStr t.data "://".data = true
      · simp only [hc, if_true]
        exact ih targ ts2 (download ++ [t]) repo files hrest hu
      · have hp : env.path_exists t = true := by
          rw [resolvableB, hg] at ht
          simp only [Option.isSome_none, Bool.false_or, Bool.or_eq_true] at ht
          cases ht with
          | inl h => exact absurd h hc
          | inr h => exact h
        simp only [Bool.not_eq_true] at hc
        simp only [hc, Bool.false_eq_true, if_false, hp, if_true]
        exact ih targ ts2 download repo (files ++ [t]) hrest hu

/-- C6: target classification follows the fixed priority order package,
then URL, then existing local file, and an unresolvable target fails the
whole resolution. Conjuncts: (1) a single target that resolves as a
database package (with a matching manifest) is consumed as the package —
even when a local file of the same name exists, its download URL is
fetched and the literal path is never queued; (2) a target that is not a
package but contains `://` is fetched as a URL even when a local file of
that name exists; (3) a target list whose first unresolvable element is
`targ` (everything before it resolvable) makes `get_targets` fail with the
error naming `targ`, for every environment — in particular for every fetch
and download-URL collaborator, so no download is initiated. -/
theorem c6_classification :
    (∀ (env : Env) (m : Match) (args : Args) (targ : String) (pkg : Pkg),
       args.targets = [targ] → env.get_dbpkg targ = some pkg →
       want_pkg pkg m = true → env.path_exists targ = true →
       get_targets env args m =
         match env.get_download_url pkg with
         | .ok url =>
           (match env.fetch_pkgurl [url] with
            | .ok downloaded => .ok downloaded
            | .error e => .error e)
         | .error e => .error e) ∧
    (∀ (env : Env) (m : Match) (args : Args) (targ : String),
       args.targets = [targ] → env.get_dbpkg targ = none →
       containsStr targ.data "://".data = true → env.path_exists targ = true →
       get_targets env args m =
         match env.fetch_pkgurl [targ] with
         | .ok downloaded => .ok downloaded
         | .error e => .error e) ∧
    (∀ (env : Env) (m : Match) (args : Args) (ts1 : List String) (targ : String)
       (ts2 : List String),
       args.targets = ts1 ++ targ :: ts2 →
       (∀ t ∈ ts1, resolvableB env t = true) → resolvableB env targ = false →
       get_targets env args m =
         .error ("\x27" ++ targ ++ "\x27 is not a package, file or url")) := by
  refine ⟨?_, ?_, ?_⟩
  · intro env m args targ pkg ht hg hw _
    simp only [get_targets, ht, List.isEmpty_cons, if_false, classifyLoop, hg, hw, if_true]
    unfold repoUrlLoop
    cases hdl : env.get_download_url pkg with
    | ok url =>
      unfold repoUrlLoop
      cases hf : env.fetch_pkgurl [url] with
      | ok downloaded => simp [hdl, hf]
      | error e => simp [hdl, hf]
    | error e => simp [hdl]
  · intro env m args targ ht hg hc _
    simp only [get_targets, ht, List.isEmpty_cons, if_false, classifyLoop, hg, hc, if_true]
    unfold repoUrlLoop
    cases hf : env.fetch_pkgurl [targ] with
    | ok downloaded => simp [hf]
    | error e => simp [hf]
  · intro env m args ts1 targ ts2 ht hall hu
    have hne : (ts1 ++ targ :: ts2).isEmpty = false := by
      cases ts1 <;> simp
    simp only [get_targets, ht, hne,
      classifyLoop_unresolvable env m ts1 targ ts2 [] [] [] hall hu]
    simp

/-- Fixture: an environment in which nothing resolves (no packages, no
files); the fetch service returns its input unchanged. -/
def envNone : Env :=
  ⟨compileStub, true, [], [], fun _ => none, fun _ => none,
   fun p => .ok ("https://cache/" ++ p.name), fun l => .ok l, fun _ => false,
   fun _ => .ok []⟩

/-- Fixture: arguments with the single target `nope` and pattern `a`. -/
def argsNope : Args := ⟨false, false, false, ["nope"], ["a"], false⟩

/-- Witness for C6: the unresolvable target `nope` fails resolution with
the error naming it. -/
theorem c6_witness :
    get_targets envNone argsNope mA =
      .error ("\x27" ++ "nope" ++ "\x27 is not a package, file or url") :=
  c6_classification.2.2 envNone mA argsNope [] "nope" [] rfl (by simp) rfl

/-- C8: in whole-database mode (no targets) with a matcher no package
manifest satisfies, target resolution yields zero archive paths, the scan
loop runs zero times, and the run exits 0 (vacuous success). Stated for
both database selectors, assuming only that fetching an empty batch
returns no paths. -/
theorem c8_vacuous_success (env : Env) (args : Args) (m : Match)
    (ht : args.targets = [])
    (hm : Match.new args.regex env.compile_regex (stripFiles args.files) = .ok m)
    (hloc : ∀ p ∈ env.localdb_pkgs, want_pkg p m = false)
    (hsync : ∀ p ∈ env.syncdb_pkgs, want_pkg p m = false)
    (hfetch : env.fetch_pkgurl [] = .ok []) :
    get_targets env args m = .ok [] ∧ run env args = .ok 0 := by
  have hgt : get_targets env args m = .ok [] := by
    have hlf : env.localdb_pkgs.filter (fun p => want_pkg p m) = [] :=
      List.filter_eq_nil_iff.mpr fun p hp => by rw [hloc p hp]; simp
    have hsf : env.syncdb_pkgs.filter (fun p => want_pkg p m) = [] :=
      List.filter_eq_nil_iff.mpr fun p hp => by rw [hsync p hp]; simp
    cases hl : args.localdb with
    | true =>
      simp only [get_targets, ht, List.isEmpty_nil, if_true, hl, hlf, List.filterMap_nil]
      unfold repoUrlLoop
      simp [hfetch]
    | false =>
      simp only [get_targets, ht, List.isEmpty_nil, if_true, hl, hsf]
      unfold repoUrlLoop
      simp [hfetch]
  refine ⟨hgt, ?_⟩
  have hgt2 : get_targets env { args with binary := args.binary || !env.isatty } m = .ok [] := by
    have hlf : env.localdb_pkgs.filter (fun p => want_pkg p m) = [] :=
      List.filter_eq_nil_iff.mpr fun p hp => by rw [hloc p hp]; simp
    have hsf : env.syncdb_pkgs.filter (fun p => want_pkg p m) = [] :=
      List.filter_eq_nil_iff.mpr fun p hp => by rw [hsync p hp]; simp
    cases hl : args.localdb with
    | true =>
      simp only [get_targets, ht, List.isEmpty_nil, if_true, hl, hlf, List.filterMap_nil]
      unfold repoUrlLoop
      simp [hfetch]
    | false =>
      simp only [get_targets, ht, List.isEmpty_nil, if_true, hl, hsf]
      unfold repoUrlLoop
      simp [hfetch]
  unfold run
  simp only [hm, hgt2]
  rfl

/-- Fixture: environment for the vacuous whole-database scenario — one
installed and one sync package, neither containing `missingfile`. -/
def envMissing : Env :=
  ⟨compileStub, true, [⟨"p1", ["usr/bin/other"]⟩], [⟨"p2", ["usr/lib/other2"]⟩],
   fun _ => none, fun _ => none,
   fun p => .ok ("https://cache/" ++ p.name), fun l => .ok l, fun _ => false,
   fun _ => .ok []⟩

/-- Fixture: whole-database arguments searching for `missingfile`. -/
def argsMissing : Args := ⟨false, false, false, [], ["missingfile"], false⟩

/-- Fixture: the matcher built from pattern `missingfile`. -/
def mMissing : Match := ⟨.Files ["missingfile"], false⟩

/-- Witness for C8 at a database with no matching manifest. -/
theorem c8_witness : run envMissing argsMissing = .ok 0 :=
  (c8_vacuous_success envMissing argsMissing mMissing rfl rfl
    (by decide) (by decide) rfl).2

/-- C9: in installed whole-database mode, even when every installed
package has a matching manifest, a package whose name is not resolvable
in any sync database is silently dropped: if none resolve, resolution
returns zero archive paths without error. -/
theorem c9_local_dropped (env : Env) (args : Args) (m : Match)
    (ht : args.targets = []) (hl : args.localdb = true)
    (_hall : ∀ p ∈ env.localdb_pkgs, want_pkg p m = true)
    (hnone : ∀ p ∈ env.localdb_pkgs, env.dbs_pkg p.name = none)
    (hfetch : env.fetch_pkgurl [] = .ok []) :
    get_targets env args m = .ok [] := by
  have hfm : (env.localdb_pkgs.filter (fun p => want_pkg p m)).filterMap
      (fun p => env.dbs_pkg p.name) = [] := by
    refine List.filterMap_eq_nil_iff.mpr fun p hp => ?_
    exact hnone p (List.mem_of_mem_filter hp)
  simp only [get_targets, ht, List.isEmpty_nil, if_true, hl, hfm]
  unfold repoUrlLoop
  simp [hfetch]

/-- Fixture: environment whose installed database has one package whose
manifest matches pattern `a`, but which no sync database resolves. -/
def envLocalOnly : Env :=
  ⟨compileStub, true, [⟨"localpkg", ["usr/bin/a"]⟩], [],
   fun _ => none, fun _ => none,
   fun p => .ok ("https://cache/" ++ p.name), fun l => .ok l, fun _ => false,
   fun _ => .ok []⟩

/-- Fixture: installed whole-database arguments with pattern `a`. -/
def argsLocal : Args := ⟨false, false, false, [], ["a"], true⟩

/-- Witness for C9: the matching installed package is dropped and zero
paths are produced. -/
theorem c9_witness : get_targets envLocalOnly argsLocal mA = .ok [] :=
  c9_local_dropped envLocalOnly argsLocal mA rfl rfl (by decide) (fun p _ => rfl) rfl

/-- Per-archive statuses of a list of resolved archive paths, each
computed on its own (specification-side recount of what `runLoop`
accumulates). -/
def archiveStatuses (env : Env) (matcher : Match) (args : Args) :
    List String → Except String (List Nat)
  | [] => .ok []
  | p :: rest =>
    match archiveStatus env matcher args p with
    | .error e => .error e
    | .ok st =>
      match archiveStatuses env matcher args rest with
      | .error e => .error e
      | .ok sts => .ok (st :: sts)

theorem runLoop_fold (env : Env) (m : Match) (args : Args) :
    ∀ (pkgs : List String) (acc : Nat),
      runLoop env m args pkgs acc =
        match archiveStatuses env m args pkgs with
        | .ok sts => .ok (sts.foldl (fun a b => a ||| b) acc)
        | .error e => .error e := by
  intro pkgs
  induction pkgs with
  | nil => intro acc; simp [runLoop, archiveStatuses]
  | cons p rest ih =>
    intro acc
    cases ho : env.open_archive p with
    | error e => simp [runLoop, archiveStatuses, archiveStatus, ho]
    | ok archive =>
      cases hd : dump_files archive m args with
      | error e => simp [runLoop, archiveStatuses, archiveStatus, ho, hd]
      | ok r =>
        simp only [runLoop, archiveStatuses, archiveStatus, ho, hd]
        rw [ih (acc ||| r.1)]
        cases hs : archiveStatuses env m args rest with
        | ok sts => simp
        | error e => simp

theorem dump_files_ret01 (archive : List ArchiveContents) (m : Match) (args : Args)
    (ret : Nat) (s : ScanState) (h : dump_files archive m args = .ok (ret, s)) :
    ret = 0 ∨ ret = 1 := by
  unfold dump_files at h
  cases hl : dumpLoop m args initScan archive with
  | error e => rw [hl] at h; cases h
  | ok s1 =>
    rw [hl] at h
    simp only [Except.ok.injEq, Prod.mk.injEq] at h
    obtain ⟨hret, _⟩ := h
    cases hw : m.with_ with
    | Files f =>
      rw [hw] at hret
      by_cases hc : f.length = s1.found
      · simp [hc] at hret; omega
      · simp [hc] at hret; omega
    | Regex r =>
      rw [hw] at hret
      by_cases hc : s1.found = 0
      · simp [hc] at hret; omega
      · simp [hc] at hret; omega

theorem foldl_lor_zero :
    ∀ (sts : List Nat) (acc : Nat), (∀ x ∈ sts, x = 0 ∨ x = 1) → (acc = 0 ∨ acc = 1) →
      (sts.foldl (fun a b => a ||| b) acc = 0 ↔ (acc = 0 ∧ ∀ x ∈ sts, x = 0)) := by
  intro sts
  induction sts with
  | nil => intro acc _ _; simp
  | cons x rest ih =>
    intro acc hall hacc
    have hx := hall x (List.mem_cons_self x rest)
    have hrest : ∀ y ∈ rest, y = 0 ∨ y = 1 :=
      fun y hy => hall y (List.mem_cons_of_mem x hy)
    have hox : acc ||| x = 0 ∨ acc ||| x = 1 := by
      rcases hacc with h | h <;> rcases hx with h2 | h2 <;> subst h <;> subst h2 <;> decide
    have key : acc ||| x = 0 ↔ (acc = 0 ∧ x = 0) := by
      rcases hacc with h | h <;> rcases hx with h2 | h2 <;> subst h <;> subst h2 <;> decide
    simp only [List.foldl_cons]
    rw [ih (acc ||| x) hrest hox]
    simp [key, List.forall_mem_cons, and_assoc]

/-- C7 (amended): the scan loop accumulates exactly the bitwise-OR of the
per-archive statuses in scan order; each per-archive status is 0 or 1, and
the OR-fold is 0 iff every scanned archive's status is 0; a top-level
error makes the process print `error: <message>` on standard error and
exit with status 1 — the same numeric status the no-match outcome uses,
not a distinct one. -/
theorem c7_status_aggregation :
    (∀ (env : Env) (m : Match) (args : Args) (pkgs : List String) (acc : Nat),
       runLoop env m args pkgs acc =
         match archiveStatuses env m args pkgs with
         | .ok sts => .ok (sts.foldl (fun a b => a ||| b) acc)
         | .error e => .error e) ∧
    (∀ (archive : List ArchiveContents) (m : Match) (args : Args) (ret : Nat)
       (s : ScanState), dump_files archive m args = .ok (ret, s) → ret = 0 ∨ ret = 1) ∧
    (∀ (sts : List Nat), (∀ x ∈ sts, x = 0 ∨ x = 1) →
       (sts.foldl (fun a b => a ||| b) 0 = 0 ↔ ∀ x ∈ sts, x = 0)) ∧
    (∀ (env : Env) (args : Args) (e : String),
       run env args = .error e → mainEntry env args = (["error: " ++ e], 1)) := by
  refine ⟨runLoop_fold, dump_files_ret01, ?_, ?_⟩
  · intro sts h
    have h2 := foldl_lor_zero sts 0 h (Or.inl rfl)
    simpa using h2
  · intro env args e h
    unfold mainEntry
    rw [h]

/-- Fixture: a regex engine that always fails to compile. -/
def compileFail : List String → Except String (String → Bool) :=
  fun _ => .error "boom"

/-- Fixture: an environment whose regex engine fails, forcing a top-level
error. -/
def envBoom : Env :=
  ⟨compileFail, true, [], [], fun _ => none, fun _ => none,
   fun p => .ok ("https://cache/" ++ p.name), fun l => .ok l, fun _ => false,
   fun _ => .ok []⟩

/-- Fixture: regex-mode arguments (target `t`, pattern `a`). -/
def argsRegex : Args := ⟨true, false, false, ["t"], ["a"], false⟩

/-- C7 counterexample: a handled top-level error exits with status 1, and
an archive scan that finds no match also reports status 1 — the fatal
status is not distinct from the no-match status. -/
theorem c7_counterexample :
    mainEntry envBoom argsRegex = (["error: " ++ "boom"], 1) ∧
    dump_files [] mA argsPlain = .ok (1, initScan) :=
  ⟨rfl, rfl⟩

/-- Witness for C7 at a failing regex compilation with no targets. -/
theorem c7_witness :
    mainEntry envBoom ⟨true, false, false, [], ["b"], false⟩ =
      (["error: " ++ "boom"], 1) :=
  c7_status_aggregation.2.2.2 envBoom ⟨true, false, false, [], ["b"], false⟩ "boom" rfl
